import Mathlib

/-!
Verification of the ShapekeyTools add-on (single source file) against its
natural-language specification.

Modelling conventions.  Vertex positions are 3-D points with exact rational
coordinates (the source uses host floats; all the logic is comparisons,
linear interpolation and copying, which we embed exactly over ℚ).  The
source compares Euclidean lengths against thresholds that the host clamps
to be non-negative (FloatProperty min=0.0); since the Euclidean length is
irrational in general, every comparison of a length with a non-negative
bound t is embedded as the equivalent comparison of the squared length
with t*t, and every sort by length is embedded as the order-isomorphic
sort by squared length.  A bridge lemma (normSq_sqrt_gt_iff) records the
equivalence with the real square root.

Python loops over enumerate(mesh.vertices) become maps/filters over
List.range n; Python list.sort (stable Timsort, keyed on the distance)
becomes a stable insertion sort keyed on the squared distance.
-/

/-- A 3-D point / vector with rational coordinates (mathutils.Vector). -/
structure Vec3 where
  x : ℚ
  y : ℚ
  z : ℚ
deriving DecidableEq

/-- The zero vector, used as an out-of-range default for list indexing. -/
def Vec3.zero : Vec3 := ⟨0, 0, 0⟩

/-- Componentwise difference (mathutils Vector subtraction). -/
def Vec3.sub (a b : Vec3) : Vec3 := ⟨a.x - b.x, a.y - b.y, a.z - b.z⟩

/-- Squared Euclidean norm: the exact value of (v.length)². -/
def Vec3.normSq (v : Vec3) : ℚ := v.x * v.x + v.y * v.y + v.z * v.z

/-- Squared Euclidean distance between two points: ((a-b).length)². -/
def dist2 (a b : Vec3) : ℚ := (Vec3.sub a b).normSq

/-- mathutils Vector.lerp: a.lerp(b, t) = a + t·(b − a), t unclamped. -/
def Vec3.lerp (a b : Vec3) (t : ℚ) : Vec3 :=
  ⟨a.x + t * (b.x - a.x), a.y + t * (b.y - a.y), a.z + t * (b.z - a.z)⟩

/-- The squared norm is non-negative. -/
theorem normSq_nonneg (v : Vec3) : 0 ≤ v.normSq := by
  have hx := mul_self_nonneg v.x
  have hy := mul_self_nonneg v.y
  have hz := mul_self_nonneg v.z
  unfold Vec3.normSq
  linarith

/-- The squared norm vanishes exactly on the zero vector. -/
theorem normSq_eq_zero_iff (v : Vec3) : v.normSq = 0 ↔ v = Vec3.zero := by
  constructor
  · intro h
    have hx := mul_self_nonneg v.x
    have hy := mul_self_nonneg v.y
    have hz := mul_self_nonneg v.z
    unfold Vec3.normSq at h
    have hx0 : v.x * v.x = 0 := by linarith
    have hy0 : v.y * v.y = 0 := by linarith
    have hz0 : v.z * v.z = 0 := by linarith
    have ex : v.x = 0 := by
      rcases mul_eq_zero.mp hx0 with h1 | h1 <;> exact h1
    have ey : v.y = 0 := by
      rcases mul_eq_zero.mp hy0 with h1 | h1 <;> exact h1
    have ez : v.z = 0 := by
      rcases mul_eq_zero.mp hz0 with h1 | h1 <;> exact h1
    cases v
    simp_all [Vec3.zero]
  · intro h
    subst h
    simp [Vec3.normSq, Vec3.zero]

/-- Squared distance vanishes exactly when the two points coincide. -/
theorem dist2_eq_zero_iff (a b : Vec3) : dist2 a b = 0 ↔ a = b := by
  rw [dist2, normSq_eq_zero_iff]
  cases a; cases b
  simp only [Vec3.sub, Vec3.zero, Vec3.mk.injEq]
  constructor
  · rintro ⟨h1, h2, h3⟩
    exact ⟨by linarith, by linarith, by linarith⟩
  · rintro ⟨h1, h2, h3⟩
    exact ⟨by linarith, by linarith, by linarith⟩

/-- Bridge to the real Euclidean length: for a non-negative threshold t,
the source's comparison (v.length > t) is exactly (v.normSq > t*t). -/
theorem normSq_sqrt_gt_iff (v : Vec3) (t : ℚ) (ht : 0 ≤ t) :
    (t : ℝ) < Real.sqrt (v.normSq : ℚ) ↔ t * t < v.normSq := by
  have hnn : (0 : ℝ) ≤ (v.normSq : ℚ) := by
    exact_mod_cast normSq_nonneg v
  rw [show ((t : ℚ) : ℝ) = Real.sqrt ((t * t : ℚ) : ℝ) by
        push_cast
        rw [Real.sqrt_mul_self (by exact_mod_cast ht)]]
  rw [Real.sqrt_lt_sqrt_iff (by positivity)]
  exact_mod_cast Iff.rfl

/-- lerp at t = 0 returns the first endpoint. -/
theorem lerp_zero (a b : Vec3) : Vec3.lerp a b 0 = a := by
  cases a; cases b
  simp [Vec3.lerp]

/-- lerp at t = 1 returns the second endpoint. -/
theorem lerp_one (a b : Vec3) : Vec3.lerp a b 1 = b := by
  cases a; cases b
  simp only [Vec3.lerp, Vec3.mk.injEq]
  refine ⟨by ring, by ring, by ring⟩

/-! ## Affected-Vertex Finder
(MESH_OT_select_shapekey_vertices.execute, src lines 50-73.)
The loop deselects everything, then for each vertex index i selects it and
bumps the count when (shape_co - basis_co).length > threshold. -/

/-- The displacement test of the finder loop for vertex i (line 61):
(shape[i] - basis[i]).length > t, embedded in squared form. -/
def vertAffected (basis shape : List Vec3) (t : ℚ) (i : Nat) : Bool :=
  t * t < dist2 (basis.getD i Vec3.zero) (shape.getD i Vec3.zero)

/-- Selection mask produced by MESH_OT_select_shapekey_vertices.execute:
all previously selected vertices are cleared, then exactly the vertices
passing the displacement test are selected, in index order. -/
def selectShapekeyVertices (basis shape : List Vec3) (t : ℚ) : List Nat :=
  (List.range shape.length).filter (fun i => vertAffected basis shape t i)

/-- The affected_count reported by the operator (one increment per selected
vertex). -/
def selectShapekeyVerticesCount (basis shape : List Vec3) (t : ℚ) : Nat :=
  (selectShapekeyVertices basis shape t).length

/-- C1: the affected-vertex mask is exactly {i < n : ‖shape[i]−basis[i]‖ > t}
(in squared form, equivalent for t ≥ 0 by normSq_sqrt_gt_iff); at t = 0 it
flags exactly the vertices with nonzero displacement; the reported count is
the size of the mask (which has no duplicates); empty arrays give an empty
mask and count 0. -/
theorem select_vertices_correct (basis shape : List Vec3) (t : ℚ)
    (hlen : basis.length = shape.length) (ht : 0 ≤ t) :
    (∀ i : Nat, i ∈ selectShapekeyVertices basis shape t ↔
      i < shape.length ∧
        t * t < dist2 (basis.getD i Vec3.zero) (shape.getD i Vec3.zero)) ∧
    (t = 0 → ∀ i : Nat, i ∈ selectShapekeyVertices basis shape t ↔
      i < shape.length ∧ shape.getD i Vec3.zero ≠ basis.getD i Vec3.zero) ∧
    (selectShapekeyVertices basis shape t).Nodup ∧
    selectShapekeyVerticesCount basis shape t =
      (selectShapekeyVertices basis shape t).length ∧
    (shape = [] → selectShapekeyVertices basis shape t = [] ∧
      selectShapekeyVerticesCount basis shape t = 0) := by
  have hmem : ∀ i : Nat, i ∈ selectShapekeyVertices basis shape t ↔
      i < shape.length ∧
        t * t < dist2 (basis.getD i Vec3.zero) (shape.getD i Vec3.zero) := by
    intro i
    simp [selectShapekeyVertices, List.mem_filter, List.mem_range,
      vertAffected]
  refine ⟨hmem, ?_, ?_, rfl, ?_⟩
  · intro ht0 i
    rw [hmem i]
    subst ht0
    have : (0 : ℚ) * 0 = 0 := by norm_num
    rw [this]
    constructor
    · rintro ⟨hi, hd⟩
      refine ⟨hi, fun heq => ?_⟩
      rw [heq] at hd
      rw [(dist2_eq_zero_iff _ _).mpr rfl] at hd
      exact lt_irrefl 0 hd
    · rintro ⟨hi, hne⟩
      refine ⟨hi, ?_⟩
      rcases lt_or_eq_of_le (by
        have := normSq_nonneg (Vec3.sub (basis.getD i Vec3.zero)
          (shape.getD i Vec3.zero))
        exact this) with h | h
      · exact h
      · exfalso
        exact hne (((dist2_eq_zero_iff _ _).mp h.symm).symm)
  · exact List.Nodup.filter _ (List.nodup_range _)
  · intro hempty
    subst hempty
    simp [selectShapekeyVertices, selectShapekeyVerticesCount]

/-- Witness for C1 on the spec §8 example: basis four zeros, shape moved by
0,1,2,3 along x, threshold 0.5 → mask {1,2,3}, count 3. -/
theorem select_vertices_correct_witness :
    (∀ i : Nat, i ∈ selectShapekeyVertices
        [⟨0,0,0⟩, ⟨0,0,0⟩, ⟨0,0,0⟩, ⟨0,0,0⟩]
        [⟨0,0,0⟩, ⟨1,0,0⟩, ⟨2,0,0⟩, ⟨3,0,0⟩] (1/2) ↔
      i < 4 ∧ (1/2 : ℚ) * (1/2) <
        dist2 (([⟨0,0,0⟩, ⟨0,0,0⟩, ⟨0,0,0⟩, ⟨0,0,0⟩] :
            List Vec3).getD i Vec3.zero)
          (([⟨0,0,0⟩, ⟨1,0,0⟩, ⟨2,0,0⟩, ⟨3,0,0⟩] :
            List Vec3).getD i Vec3.zero)) ∧
    selectShapekeyVerticesCount
        [⟨0,0,0⟩, ⟨0,0,0⟩, ⟨0,0,0⟩, ⟨0,0,0⟩]
        [⟨0,0,0⟩, ⟨1,0,0⟩, ⟨2,0,0⟩, ⟨3,0,0⟩] (1/2) = 3 := by
  have h := select_vertices_correct
    [⟨0,0,0⟩, ⟨0,0,0⟩, ⟨0,0,0⟩, ⟨0,0,0⟩]
    [⟨0,0,0⟩, ⟨1,0,0⟩, ⟨2,0,0⟩, ⟨3,0,0⟩] (1/2) (by simp) (by norm_num)
  refine ⟨h.1, ?_⟩
  norm_num [selectShapekeyVerticesCount, selectShapekeyVertices, vertAffected,
    dist2, Vec3.sub, Vec3.normSq, Vec3.zero, List.range_succ, List.filter]

/-! ## Weighted Blender, vertex-group mode
(MESH_OT_blend_shapekey_from_vgroup.execute, src lines 178-226.)
Per vertex: weight starts at 0.0, the first deform-group entry whose group
index matches the chosen vertex group supplies the weight (for/break loop,
lines 201-205); the invert flag replaces weight by 1 - weight; the new
position is basis_co.lerp(shape_co, weight). -/

/-- The weight-lookup loop of lines 201-205: first entry of the vertex's
group list matching the group index wins, otherwise 0.0. -/
def vertexWeight (groups : List (Nat × ℚ)) (gidx : Nat) : ℚ :=
  match groups with
  | [] => 0
  | g :: rest => if g.1 = gidx then g.2 else vertexWeight rest gidx

/-- The effective weight of vertex i after the optional inversion
(lines 207-209): vdata lists each vertex's (group index, weight) pairs. -/
def effWeight (vdata : List (List (Nat × ℚ))) (gidx : Nat) (invert : Bool)
    (i : Nat) : ℚ :=
  let w := vertexWeight (vdata.getD i []) gidx
  if invert then 1 - w else w

/-- The per-vertex blend loop of lines 199-216: every position of the active
shape key is overwritten with basis.lerp(shape, weight). -/
def blendFromVGroup (basis shape : List Vec3) (vdata : List (List (Nat × ℚ)))
    (gidx : Nat) (invert : Bool) : List Vec3 :=
  (List.range shape.length).map (fun i =>
    Vec3.lerp (basis.getD i Vec3.zero) (shape.getD i Vec3.zero)
      (effWeight vdata gidx invert i))

/-- Operator outcome: cancelled (ERROR report, return CANCELLED, shape data
untouched) or finished with the new shape positions. -/
inductive BlendVGroupResult
  | cancelled (positions : List Vec3)
  | finished (positions : List Vec3)
deriving DecidableEq

/-- MESH_OT_blend_shapekey_from_vgroup.execute including the vertex-group
lookup of lines 183-186: obj.vertex_groups.get(name) is modelled as find?
over (name, index) pairs; a miss reports an ERROR and returns CANCELLED
before any write. -/
def blendShapekeyFromVGroupOp (vgroups : List (String × Nat)) (name : String)
    (basis shape : List Vec3) (vdata : List (List (Nat × ℚ)))
    (invert : Bool) : BlendVGroupResult :=
  match vgroups.find? (fun g => g.1 == name) with
  | none => .cancelled shape
  | some g => .finished (blendFromVGroup basis shape vdata g.2 invert)

/-- Index i of a map over List.range n reads back as f i. -/
theorem getD_map_range {α : Type} (f : Nat → α) (n i : Nat) (hi : i < n)
    (d : α) : ((List.range n).map f).getD i d = f i := by
  rw [List.getD_eq_getElem?_getD, List.getElem?_map, List.getElem?_range hi]
  rfl

/-- C2: in vertex-group mode every vertex i gets exactly
lerp(basis[i], shape[i], w) with w the first matching group weight
(default 0), inverted to 1 - w when the flag is set and never clamped; at
w = 0 the vertex lands exactly on basis[i], at w = 1 it keeps its original
shape position. -/
theorem blend_vgroup_correct (basis shape : List Vec3)
    (vdata : List (List (Nat × ℚ))) (gidx : Nat) (invert : Bool)
    (hlen : basis.length = shape.length) :
    (blendFromVGroup basis shape vdata gidx invert).length = shape.length ∧
    (∀ i : Nat, i < shape.length →
      (blendFromVGroup basis shape vdata gidx invert).getD i Vec3.zero =
        Vec3.lerp (basis.getD i Vec3.zero) (shape.getD i Vec3.zero)
          (effWeight vdata gidx invert i)) ∧
    (∀ i : Nat, i < shape.length → effWeight vdata gidx invert i = 0 →
      (blendFromVGroup basis shape vdata gidx invert).getD i Vec3.zero =
        basis.getD i Vec3.zero) ∧
    (∀ i : Nat, i < shape.length → effWeight vdata gidx invert i = 1 →
      (blendFromVGroup basis shape vdata gidx invert).getD i Vec3.zero =
        shape.getD i Vec3.zero) := by
  have hget : ∀ i : Nat, i < shape.length →
      (blendFromVGroup basis shape vdata gidx invert).getD i Vec3.zero =
        Vec3.lerp (basis.getD i Vec3.zero) (shape.getD i Vec3.zero)
          (effWeight vdata gidx invert i) := by
    intro i hi
    exact getD_map_range _ _ i hi _
  refine ⟨by simp [blendFromVGroup], hget, ?_, ?_⟩
  · intro i hi hw
    rw [hget i hi, hw, lerp_zero]
  · intro i hi hw
    rw [hget i hi, hw, lerp_one]

/-- Witness for C2: one vertex at basis (0,0,0), shape (2,0,0), vertex in
group 0 with weight 1/2, no inversion. -/
theorem blend_vgroup_correct_witness :
    (blendFromVGroup [⟨0,0,0⟩] [⟨2,0,0⟩] [[(0, 1/2)]] 0 false).length = 1 ∧
    (∀ i : Nat, i < 1 →
      (blendFromVGroup [⟨0,0,0⟩] [⟨2,0,0⟩] [[(0, 1/2)]] 0 false).getD i
          Vec3.zero =
        Vec3.lerp (([⟨0,0,0⟩] : List Vec3).getD i Vec3.zero)
          (([⟨2,0,0⟩] : List Vec3).getD i Vec3.zero)
          (effWeight [[(0, 1/2)]] 0 false i)) ∧
    (∀ i : Nat, i < 1 → effWeight [[(0, 1/2)]] 0 false i = 0 →
      (blendFromVGroup [⟨0,0,0⟩] [⟨2,0,0⟩] [[(0, 1/2)]] 0 false).getD i
          Vec3.zero = ([⟨0,0,0⟩] : List Vec3).getD i Vec3.zero) ∧
    (∀ i : Nat, i < 1 → effWeight [[(0, 1/2)]] 0 false i = 1 →
      (blendFromVGroup [⟨0,0,0⟩] [⟨2,0,0⟩] [[(0, 1/2)]] 0 false).getD i
          Vec3.zero = ([⟨2,0,0⟩] : List Vec3).getD i Vec3.zero) := by
  have h := blend_vgroup_correct [⟨0,0,0⟩] [⟨2,0,0⟩] [[(0, 1/2)]] 0 false
    (by simp)
  simpa using h

/-- C7: when the named vertex group is absent, the operator is cancelled
and the shape positions it hands back are exactly the input positions —
no mutation happened. -/
theorem blend_vgroup_notfound (vgroups : List (String × Nat)) (name : String)
    (basis shape : List Vec3) (vdata : List (List (Nat × ℚ))) (invert : Bool)
    (habsent : ∀ g ∈ vgroups, g.1 ≠ name) :
    blendShapekeyFromVGroupOp vgroups name basis shape vdata invert =
      BlendVGroupResult.cancelled shape := by
  have hfind : vgroups.find? (fun g => g.1 == name) = none := by
    rw [List.find?_eq_none]
    intro g hg
    simpa using habsent g hg
  unfold blendShapekeyFromVGroupOp
  rw [hfind]

/-- Witness for C7: the object only has a group named Arm; a blend
requested for group Leg cancels with the shape array untouched. -/
theorem blend_vgroup_notfound_witness :
    blendShapekeyFromVGroupOp [("Arm", 0)] "Leg"
        [⟨0,0,0⟩] [⟨2,0,0⟩] [[(0, 1/2)]] false =
      BlendVGroupResult.cancelled [⟨2,0,0⟩] :=
  blend_vgroup_notfound [("Arm", 0)] "Leg" [⟨0,0,0⟩] [⟨2,0,0⟩] [[(0, 1/2)]]
    false (by simp)

/-! ## Distance-Ranked Cleanup
(MESH_OT_blend_to_basis_by_distance.execute, src lines 281-346.)
Lines 296-304 collect (index, distance) pairs for the vertices that
actually move (dist > 0.0); line 307 returns early when the list is empty;
line 312 sorts ascending by distance with Python's stable sort; lines
317-323 pick the prefix int(M·pct/100) in PERCENTAGE mode or the
dist ≤ distance_threshold entries in THRESHOLD mode; lines 326-330 copy
basis[i] into the shape key for each picked index; line 340 reports
remaining = M - reset_count.  Distances are stored squared (sorting and
all comparisons are order-isomorphic; the host clamps distance_threshold
and percentage to be ≥ 0, so int() truncation is floor). -/

/-- One iteration of the distance-collection loop (lines 298-304): the
(index, squared displacement) pair when vertex i moves, nothing when it
sits on the basis. -/
def movingEntry (basis shape : List Vec3) (i : Nat) : Option (Nat × ℚ) :=
  if 0 < dist2 (basis.getD i Vec3.zero) (shape.getD i Vec3.zero) then
    some (i, dist2 (basis.getD i Vec3.zero) (shape.getD i Vec3.zero))
  else none

/-- The moving set of lines 296-304: (vertex index, squared displacement)
for every vertex whose displacement is strictly positive, in index order. -/
def movingSet (basis shape : List Vec3) : List (Nat × ℚ) :=
  (List.range shape.length).filterMap (movingEntry basis shape)

/-- One insertion step of the stable ascending sort: x goes in front of the
first entry with an equal-or-larger key, hence in front of entries equal to
it — x comes from earlier in the original list than everything in l. -/
def insertByD (x : Nat × ℚ) : List (Nat × ℚ) → List (Nat × ℚ)
  | [] => [x]
  | y :: ys => if x.2 ≤ y.2 then x :: y :: ys else y :: insertByD x ys

/-- Stable insertion sort, ascending by the (squared) distance key: the
embedding of vertex_distances.sort(key=lambda x: x[1]) at line 312. -/
def sortByD : List (Nat × ℚ) → List (Nat × ℚ)
  | [] => []
  | x :: xs => insertByD x (sortByD xs)

/-- The write-back loop of lines 326-330: each listed index gets an exact
copy of its basis position. -/
def resetVerts (basis : List Vec3) (shape : List Vec3) : List Nat → List Vec3
  | [] => shape
  | i :: rest => resetVerts basis (shape.set i (basis.getD i Vec3.zero)) rest

/-- The two cleanup modes of the threshold_mode EnumProperty. -/
inductive CleanupMode
  | percentage
  | threshold
deriving DecidableEq

/-- What the operator reports: the early NoOp of lines 307-309 (INFO
message, FINISHED, nothing written) or a reset with its count and the
remaining-moving count of line 340. -/
inductive CleanupOutcome
  | noOp
  | reset (resetCount remaining : Nat)
deriving DecidableEq

/-- Result of the cleanup operator: final shape positions and report. -/
structure CleanupResult where
  positions : List Vec3
  outcome : CleanupOutcome
deriving DecidableEq

/-- MESH_OT_blend_to_basis_by_distance.execute. -/
def blendToBasisByDistance (basis shape : List Vec3) (mode : CleanupMode)
    (pct thr : ℚ) : CleanupResult :=
  let vd := movingSet basis shape
  if vd.isEmpty then ⟨shape, .noOp⟩
  else
    let sorted := sortByD vd
    let toReset : List Nat :=
      match mode with
      | .percentage =>
          (sorted.take (Nat.floor ((vd.length : ℚ) * (pct / 100)))).map
            Prod.fst
      | .threshold =>
          (sorted.filter (fun v => v.2 ≤ thr * thr)).map Prod.fst
    ⟨resetVerts basis shape toReset,
      .reset toReset.length (vd.length - toReset.length)⟩

/-- Strict ordering on (index, key) pairs: by key, ties by index.  A list
sorted this way is the unique stable ascending reordering of a list whose
indices strictly increase. -/
def lexLt (a b : Nat × ℚ) : Prop := a.2 < b.2 ∨ (a.2 = b.2 ∧ a.1 < b.1)

/-- Membership in the moving set. -/
theorem mem_movingSet (basis shape : List Vec3) (p : Nat × ℚ) :
    p ∈ movingSet basis shape ↔
      p.1 < shape.length ∧ 0 < p.2 ∧
        p.2 = dist2 (basis.getD p.1 Vec3.zero) (shape.getD p.1 Vec3.zero) := by
  unfold movingSet movingEntry
  rw [List.mem_filterMap]
  constructor
  · rintro ⟨i, hi, heq⟩
    rw [List.mem_range] at hi
    by_cases hq : 0 < dist2 (basis.getD i Vec3.zero) (shape.getD i Vec3.zero)
    · rw [if_pos hq] at heq
      cases heq
      exact ⟨hi, hq, rfl⟩
    · rw [if_neg hq] at heq
      cases heq
  · rintro ⟨hi, hpos, heq⟩
    refine ⟨p.1, List.mem_range.mpr hi, ?_⟩
    rw [heq] at hpos
    rw [if_pos hpos, ← heq]
  
/-- The moving set lists its indices in strictly increasing order. -/
theorem movingSet_pairwise (basis shape : List Vec3) :
    (movingSet basis shape).Pairwise (fun a b => a.1 < b.1) := by
  unfold movingSet movingEntry
  rw [List.pairwise_filterMap]
  refine List.Pairwise.imp ?_ (List.pairwise_lt_range shape.length)
  intro i j hij x hx y hy
  rw [Option.mem_def] at hx hy
  by_cases hqi : 0 < dist2 (basis.getD i Vec3.zero) (shape.getD i Vec3.zero)
  · by_cases hqj : 0 < dist2 (basis.getD j Vec3.zero) (shape.getD j Vec3.zero)
    · rw [if_pos hqi] at hx
      rw [if_pos hqj] at hy
      cases hx
      cases hy
      exact hij
    · rw [if_neg hqj] at hy
      cases hy
  · rw [if_neg hqi] at hx
    cases hx

/-- Membership is preserved by one insertion step. -/
theorem mem_insertByD (x z : Nat × ℚ) (l : List (Nat × ℚ)) :
    z ∈ insertByD x l ↔ z = x ∨ z ∈ l := by
  induction l with
  | nil => simp [insertByD]
  | cons y ys ih =>
    unfold insertByD
    by_cases hle : x.2 ≤ y.2
    · rw [if_pos hle]
      simp
    · rw [if_neg hle]
      simp only [List.mem_cons, ih]
      tauto

/-- Insertion produces a permutation of the cons. -/
theorem insertByD_perm (x : Nat × ℚ) (l : List (Nat × ℚ)) :
    (insertByD x l).Perm (x :: l) := by
  induction l with
  | nil => exact List.Perm.refl _
  | cons y ys ih =>
    unfold insertByD
    by_cases hle : x.2 ≤ y.2
    · rw [if_pos hle]
    · rw [if_neg hle]
      exact (ih.cons y).trans (List.Perm.swap x y ys)

/-- The sort produces a permutation of its input. -/
theorem sortByD_perm (l : List (Nat × ℚ)) : (sortByD l).Perm l := by
  induction l with
  | nil => exact List.Perm.refl _
  | cons x xs ih =>
    exact (insertByD_perm x (sortByD xs)).trans (ih.cons x)

/-- lexLt implies a weak key inequality. -/
theorem lexLt_le {a b : Nat × ℚ} (h : lexLt a b) : a.2 ≤ b.2 := by
  rcases h with h | ⟨h, _⟩
  · exact le_of_lt h
  · exact le_of_eq h

/-- Inserting an element whose original index precedes everything already
present keeps the list lexicographically sorted. -/
theorem insertByD_pairwise_lex (x : Nat × ℚ) (l : List (Nat × ℚ))
    (hl : l.Pairwise lexLt) (hidx : ∀ y ∈ l, x.1 < y.1) :
    (insertByD x l).Pairwise lexLt := by
  induction l with
  | nil => simp [insertByD]
  | cons y ys ih =>
    rw [List.pairwise_cons] at hl
    obtain ⟨hy, hys⟩ := hl
    unfold insertByD
    by_cases hle : x.2 ≤ y.2
    · rw [if_pos hle]
      rw [List.pairwise_cons]
      constructor
      · intro z hz
        rcases List.mem_cons.mp hz with hz | hz
        · subst hz
          rcases lt_or_eq_of_le hle with h | h
          · exact Or.inl h
          · exact Or.inr ⟨h, hidx z (List.mem_cons_self _ _)⟩
        · have hyz : y.2 ≤ z.2 := lexLt_le (hy z hz)
          rcases lt_or_eq_of_le (le_trans hle hyz) with h | h
          · exact Or.inl h
          · exact Or.inr ⟨h, hidx z (List.mem_cons_of_mem _ hz)⟩
      · rw [List.pairwise_cons]
        exact ⟨hy, hys⟩
    · rw [if_neg hle]
      rw [List.pairwise_cons]
      constructor
      · intro z hz
        rcases (mem_insertByD x z ys).mp hz with hz | hz
        · subst hz
          exact Or.inl (lt_of_not_le hle)
        · exact hy z hz
      · exact ih hys (fun z hz => hidx z (List.mem_cons_of_mem _ hz))

/-- Sorting a list whose indices strictly increase yields a
lexicographically sorted list: ascending keys, ties in original index
order — exactly a stable ascending sort. -/
theorem sortByD_pairwise_lex (l : List (Nat × ℚ))
    (hl : l.Pairwise (fun a b => a.1 < b.1)) :
    (sortByD l).Pairwise lexLt := by
  induction l with
  | nil => simp [sortByD]
  | cons x xs ih =>
    rw [List.pairwise_cons] at hl
    obtain ⟨hx, hxs⟩ := hl
    refine insertByD_pairwise_lex x (sortByD xs) (ih hxs) ?_
    intro y hy
    exact hx y ((sortByD_perm xs).mem_iff.mp hy)

/-- The write-back loop preserves the array length. -/
theorem resetVerts_length (basis : List Vec3) (l : List Nat) :
    ∀ shape : List Vec3, (resetVerts basis shape l).length = shape.length := by
  induction l with
  | nil => intro shape; rfl
  | cons j rest ih =>
    intro shape
    unfold resetVerts
    rw [ih, List.length_set]

/-- Positions not in the reset list are untouched by the write-back loop. -/
theorem resetVerts_getD_not_mem (basis : List Vec3) (l : List Nat) (i : Nat)
    (hni : i ∉ l) : ∀ shape : List Vec3,
    (resetVerts basis shape l).getD i Vec3.zero = shape.getD i Vec3.zero := by
  induction l with
  | nil => intro shape; rfl
  | cons j rest ih =>
    intro shape
    have hij : i ≠ j := fun h => hni (h ▸ List.mem_cons_self j rest)
    have hirest : i ∉ rest := fun h => hni (List.mem_cons_of_mem j h)
    unfold resetVerts
    rw [ih hirest]
    simp only [List.getD_eq_getElem?_getD, List.getElem?_set_ne (Ne.symm hij)]

/-- Positions in the reset list end as an exact copy of basis. -/
theorem resetVerts_getD_mem (basis : List Vec3) (l : List Nat) (i : Nat)
    (hmem : i ∈ l) : ∀ shape : List Vec3, i < shape.length →
    (resetVerts basis shape l).getD i Vec3.zero =
      basis.getD i Vec3.zero := by
  induction l with
  | nil => cases hmem
  | cons j rest ih =>
    intro shape hi
    unfold resetVerts
    by_cases hr : i ∈ rest
    · exact ih hr _ (by rw [List.length_set]; exact hi)
    · have hij : i = j := by
        rcases List.mem_cons.mp hmem with h | h
        · exact h
        · exact absurd h hr
      subst hij
      rw [resetVerts_getD_not_mem basis rest i hr]
      rw [List.getD_eq_getElem?_getD, List.getElem?_set_self hi]
      rfl

/-- Names the code's num_to_reset (line 319): int(M · pct/100), which for
the host-clamped pct ≥ 0 is the floor. -/
def cleanupResetCount (basis shape : List Vec3) (pct : ℚ) : Nat :=
  Nat.floor (((movingSet basis shape).length : ℚ) * (pct / 100))

/-- Names the code's vertices_to_reset in PERCENTAGE mode (line 320): the
indices of the first num_to_reset entries of the sorted moving set. -/
def cleanupPrefix (basis shape : List Vec3) (pct : ℚ) : List Nat :=
  ((sortByD (movingSet basis shape)).take
    (cleanupResetCount basis shape pct)).map Prod.fst

/-- Names the code's vertices_to_reset in THRESHOLD mode (line 323):
indices of the moving entries with distance ≤ distance_threshold
(squared form). -/
def cleanupThresholdPick (basis shape : List Vec3) (thr : ℚ) : List Nat :=
  ((sortByD (movingSet basis shape)).filter
    (fun v => v.2 ≤ thr * thr)).map Prod.fst

/-- Index membership in the THRESHOLD-mode pick: exactly the vertices that
move and move by at most the threshold. -/
theorem mem_cleanupThresholdPick (basis shape : List Vec3) (thr : ℚ)
    (i : Nat) :
    i ∈ cleanupThresholdPick basis shape thr ↔
      i < shape.length ∧
        0 < dist2 (basis.getD i Vec3.zero) (shape.getD i Vec3.zero) ∧
        dist2 (basis.getD i Vec3.zero) (shape.getD i Vec3.zero) ≤
          thr * thr := by
  unfold cleanupThresholdPick
  rw [List.mem_map]
  constructor
  · rintro ⟨v, hv, hvi⟩
    rw [List.mem_filter] at hv
    obtain ⟨hvs, hvle⟩ := hv
    have hvm := (sortByD_perm _).mem_iff.mp hvs
    rw [mem_movingSet] at hvm
    obtain ⟨h1, h2, h3⟩ := hvm
    subst hvi
    rw [← h3]
    exact ⟨h1, h2, by simpa using hvle⟩
  · rintro ⟨h1, h2, h3⟩
    refine ⟨(i, dist2 (basis.getD i Vec3.zero) (shape.getD i Vec3.zero)),
      ?_, rfl⟩
    rw [List.mem_filter]
    refine ⟨(sortByD_perm _).mem_iff.mpr ?_, by simpa using h3⟩
    rw [mem_movingSet]
    exact ⟨h1, h2, rfl⟩

/-- Indices in the PERCENTAGE-mode pick are valid vertex indices. -/
theorem mem_cleanupPrefix_lt (basis shape : List Vec3) (pct : ℚ) (i : Nat)
    (h : i ∈ cleanupPrefix basis shape pct) : i < shape.length := by
  obtain ⟨v, hv, hvi⟩ := List.mem_map.mp h
  have hs := List.take_subset _ _ hv
  have hm := (sortByD_perm _).mem_iff.mp hs
  rw [mem_movingSet] at hm
  subst hvi
  exact hm.1

/-- The reset count never exceeds the moving-set size when pct ≤ 100. -/
theorem cleanupResetCount_le (basis shape : List Vec3) (pct : ℚ)
    (hp0 : 0 ≤ pct) (hp1 : pct ≤ 100) :
    cleanupResetCount basis shape pct ≤ (movingSet basis shape).length := by
  unfold cleanupResetCount
  have hle : (((movingSet basis shape).length : ℚ)) * (pct / 100) ≤
      (((movingSet basis shape).length : ℚ)) := by
    apply mul_le_of_le_one_right (Nat.cast_nonneg _)
    linarith
  calc Nat.floor ((((movingSet basis shape).length : ℚ)) * (pct / 100)) ≤
      Nat.floor (((movingSet basis shape).length : ℚ)) :=
        Nat.floor_le_floor hle
    _ = (movingSet basis shape).length := Nat.floor_natCast _

/-- The PERCENTAGE-mode pick has exactly reset-count entries (pct ≤ 100). -/
theorem cleanupPrefix_length (basis shape : List Vec3) (pct : ℚ)
    (hp0 : 0 ≤ pct) (hp1 : pct ≤ 100) :
    (cleanupPrefix basis shape pct).length =
      cleanupResetCount basis shape pct := by
  unfold cleanupPrefix
  rw [List.length_map, List.length_take, (sortByD_perm _).length_eq]
  exact min_eq_left (cleanupResetCount_le basis shape pct hp0 hp1)

/-- C4: in THRESHOLD mode (moving set nonempty), every moving vertex whose
displacement is at most the threshold (inclusive, squared form: the host
clamps thr ≥ 0, so d ≤ thr ↔ d² ≤ thr²) ends as an exact copy of its basis
position, and every vertex whose displacement exceeds the threshold keeps
its shape position unchanged. -/
theorem cleanup_threshold_correct (basis shape : List Vec3) (pct thr : ℚ)
    (hlen : basis.length = shape.length) (hthr : 0 ≤ thr)
    (hne : movingSet basis shape ≠ []) :
    ∀ i : Nat, i < shape.length →
      ((0 < dist2 (basis.getD i Vec3.zero) (shape.getD i Vec3.zero) ∧
          dist2 (basis.getD i Vec3.zero) (shape.getD i Vec3.zero) ≤
            thr * thr) →
        (blendToBasisByDistance basis shape .threshold pct thr).positions.getD
            i Vec3.zero = basis.getD i Vec3.zero) ∧
      (thr * thr < dist2 (basis.getD i Vec3.zero) (shape.getD i Vec3.zero) →
        (blendToBasisByDistance basis shape .threshold pct thr).positions.getD
            i Vec3.zero = shape.getD i Vec3.zero) := by
  have hcond : ¬((movingSet basis shape).isEmpty = true) := by
    intro hemp
    exact hne (List.isEmpty_iff.mp hemp)
  have hpos : (blendToBasisByDistance basis shape .threshold pct thr).positions
      = resetVerts basis shape (cleanupThresholdPick basis shape thr) := by
    unfold blendToBasisByDistance
    rw [if_neg hcond]
    rfl
  intro i hi
  constructor
  · rintro ⟨h2, h3⟩
    rw [hpos]
    exact resetVerts_getD_mem basis _ i
      ((mem_cleanupThresholdPick basis shape thr i).mpr ⟨hi, h2, h3⟩) shape hi
  · intro hgt
    rw [hpos]
    apply resetVerts_getD_not_mem
    intro hmem
    rw [mem_cleanupThresholdPick] at hmem
    exact absurd hmem.2.2 (not_le.mpr hgt)

/-- Witness for C4 on the spec §8 example: threshold 3/2 resets vertex 1
(d = 1 ≤ 3/2) to its basis position and leaves vertex 2 (d = 2 > 3/2)
unchanged. -/
theorem cleanup_threshold_correct_witness :
    (blendToBasisByDistance [⟨0,0,0⟩, ⟨0,0,0⟩, ⟨0,0,0⟩, ⟨0,0,0⟩]
        [⟨0,0,0⟩, ⟨1,0,0⟩, ⟨2,0,0⟩, ⟨3,0,0⟩] CleanupMode.threshold 10
        (3/2)).positions.getD 1 Vec3.zero =
      ([⟨0,0,0⟩, ⟨0,0,0⟩, ⟨0,0,0⟩, ⟨0,0,0⟩] : List Vec3).getD 1 Vec3.zero ∧
    (blendToBasisByDistance [⟨0,0,0⟩, ⟨0,0,0⟩, ⟨0,0,0⟩, ⟨0,0,0⟩]
        [⟨0,0,0⟩, ⟨1,0,0⟩, ⟨2,0,0⟩, ⟨3,0,0⟩] CleanupMode.threshold 10
        (3/2)).positions.getD 2 Vec3.zero =
      ([⟨0,0,0⟩, ⟨1,0,0⟩, ⟨2,0,0⟩, ⟨3,0,0⟩] : List Vec3).getD 2 Vec3.zero := by
  have hmem : ((1 : Nat), (1 : ℚ)) ∈ movingSet
      [⟨0,0,0⟩, ⟨0,0,0⟩, ⟨0,0,0⟩, ⟨0,0,0⟩]
      [⟨0,0,0⟩, ⟨1,0,0⟩, ⟨2,0,0⟩, ⟨3,0,0⟩] := by
    rw [mem_movingSet]
    norm_num [dist2, Vec3.sub, Vec3.normSq, Vec3.zero]
  have h := cleanup_threshold_correct [⟨0,0,0⟩, ⟨0,0,0⟩, ⟨0,0,0⟩, ⟨0,0,0⟩]
    [⟨0,0,0⟩, ⟨1,0,0⟩, ⟨2,0,0⟩, ⟨3,0,0⟩] 10 (3/2) (by simp)
    (by norm_num) (List.ne_nil_of_mem hmem)
  constructor
  · exact (h 1 (by norm_num)).1
      (by norm_num [dist2, Vec3.sub, Vec3.normSq, Vec3.zero])
  · exact (h 2 (by norm_num)).2
      (by norm_num [dist2, Vec3.sub, Vec3.normSq, Vec3.zero])

/-- C8: when no vertex moves (empty moving set) the cleanup reports the
NoOp outcome — distinct by construction from a reset report, delivered as
INFO with return FINISHED, not as an error — and writes nothing in either
mode: the positions handed back are exactly the input shape positions. -/
theorem cleanup_noop (basis shape : List Vec3) (mode : CleanupMode)
    (pct thr : ℚ) (hempty : movingSet basis shape = []) :
    blendToBasisByDistance basis shape mode pct thr =
      ⟨shape, CleanupOutcome.noOp⟩ := by
  unfold blendToBasisByDistance
  rw [hempty]
  rfl

/-- Witness for C8: a one-vertex mesh whose shape key sits on the basis;
both modes report NoOp and leave the position array untouched. -/
theorem cleanup_noop_witness :
    blendToBasisByDistance [⟨1,2,3⟩] [⟨1,2,3⟩] CleanupMode.percentage 10 0 =
      ⟨[⟨1,2,3⟩], CleanupOutcome.noOp⟩ ∧
    blendToBasisByDistance [⟨1,2,3⟩] [⟨1,2,3⟩] CleanupMode.threshold 10 (1/2) =
      ⟨[⟨1,2,3⟩], CleanupOutcome.noOp⟩ := by
  have hms : movingSet [⟨1,2,3⟩] [⟨1,2,3⟩] = [] := by
    norm_num [movingSet, movingEntry, List.range_succ, dist2, Vec3.sub,
      Vec3.normSq, Vec3.zero]
  exact ⟨cleanup_noop _ _ _ _ _ hms, cleanup_noop _ _ _ _ _ hms⟩

/-- C10: the parameter unused by the selected mode cannot influence the
result: THRESHOLD-mode output is identical across any two percentage
values, and PERCENTAGE-mode output is identical across any two
distance-threshold values. -/
theorem cleanup_param_noninterference (basis shape : List Vec3)
    (p1 p2 t1 t2 : ℚ) :
    blendToBasisByDistance basis shape .threshold p1 t1 =
      blendToBasisByDistance basis shape .threshold p2 t1 ∧
    blendToBasisByDistance basis shape .percentage p1 t1 =
      blendToBasisByDistance basis shape .percentage p1 t2 :=
  ⟨rfl, rfl⟩

/-- C3: in PERCENTAGE mode (moving set nonempty, 0 ≤ pct ≤ 100) the sorted
list is the stable ascending reordering of the moving set (a permutation,
sorted by displacement with ties in original index order); exactly
⌊M · pct/100⌋ vertices are reset — the prefix of that sorted list — each to
an exact copy of its basis position; every other vertex keeps its shape
position; and the report carries reset count ⌊M·pct/100⌋ and remaining
count M − ⌊M·pct/100⌋. -/
theorem cleanup_percentage_correct (basis shape : List Vec3) (pct thr : ℚ)
    (hlen : basis.length = shape.length) (hp0 : 0 ≤ pct) (hp1 : pct ≤ 100)
    (hne : movingSet basis shape ≠ []) :
    (sortByD (movingSet basis shape)).Perm (movingSet basis shape) ∧
    (sortByD (movingSet basis shape)).Pairwise lexLt ∧
    (cleanupPrefix basis shape pct).length =
      cleanupResetCount basis shape pct ∧
    blendToBasisByDistance basis shape .percentage pct thr =
      ⟨resetVerts basis shape (cleanupPrefix basis shape pct),
        .reset (cleanupResetCount basis shape pct)
          ((movingSet basis shape).length -
            cleanupResetCount basis shape pct)⟩ ∧
    (∀ i ∈ cleanupPrefix basis shape pct,
      (blendToBasisByDistance basis shape .percentage pct
          thr).positions.getD i Vec3.zero = basis.getD i Vec3.zero) ∧
    (∀ i : Nat, i < shape.length → i ∉ cleanupPrefix basis shape pct →
      (blendToBasisByDistance basis shape .percentage pct
          thr).positions.getD i Vec3.zero = shape.getD i Vec3.zero) := by
  have hcond : ¬((movingSet basis shape).isEmpty = true) := fun hemp =>
    hne (List.isEmpty_iff.mp hemp)
  have hlenpfx := cleanupPrefix_length basis shape pct hp0 hp1
  have hres : blendToBasisByDistance basis shape .percentage pct thr =
      ⟨resetVerts basis shape (cleanupPrefix basis shape pct),
        .reset (cleanupPrefix basis shape pct).length
          ((movingSet basis shape).length -
            (cleanupPrefix basis shape pct).length)⟩ := by
    unfold blendToBasisByDistance
    rw [if_neg hcond]
    rfl
  refine ⟨sortByD_perm _,
    sortByD_pairwise_lex _ (movingSet_pairwise basis shape), hlenpfx, ?_,
    ?_, ?_⟩
  · rw [hres, hlenpfx]
  · intro i hi
    rw [hres]
    exact resetVerts_getD_mem basis _ i hi shape
      (mem_cleanupPrefix_lt basis shape pct i hi)
  · intro i hi hni
    rw [hres]
    exact resetVerts_getD_not_mem basis _ i hni shape

/-- Witness for C3 on the spec §8 example: basis four zeros, shape moved by
0,1,2,3 along x, 50% → moving set [(1,d²=1),(2,4),(3,9)], M = 3,
reset count ⌊1.5⌋ = 1, vertex 1 reset, remaining 2. -/
theorem cleanup_percentage_correct_witness :
    ((sortByD (movingSet [⟨0,0,0⟩, ⟨0,0,0⟩, ⟨0,0,0⟩, ⟨0,0,0⟩]
        [⟨0,0,0⟩, ⟨1,0,0⟩, ⟨2,0,0⟩, ⟨3,0,0⟩])).Perm
      (movingSet [⟨0,0,0⟩, ⟨0,0,0⟩, ⟨0,0,0⟩, ⟨0,0,0⟩]
        [⟨0,0,0⟩, ⟨1,0,0⟩, ⟨2,0,0⟩, ⟨3,0,0⟩]) ∧
      (sortByD (movingSet [⟨0,0,0⟩, ⟨0,0,0⟩, ⟨0,0,0⟩, ⟨0,0,0⟩]
        [⟨0,0,0⟩, ⟨1,0,0⟩, ⟨2,0,0⟩, ⟨3,0,0⟩])).Pairwise lexLt ∧
      (cleanupPrefix [⟨0,0,0⟩, ⟨0,0,0⟩, ⟨0,0,0⟩, ⟨0,0,0⟩]
        [⟨0,0,0⟩, ⟨1,0,0⟩, ⟨2,0,0⟩, ⟨3,0,0⟩] 50).length =
        cleanupResetCount [⟨0,0,0⟩, ⟨0,0,0⟩, ⟨0,0,0⟩, ⟨0,0,0⟩]
          [⟨0,0,0⟩, ⟨1,0,0⟩, ⟨2,0,0⟩, ⟨3,0,0⟩] 50 ∧
      blendToBasisByDistance [⟨0,0,0⟩, ⟨0,0,0⟩, ⟨0,0,0⟩, ⟨0,0,0⟩]
          [⟨0,0,0⟩, ⟨1,0,0⟩, ⟨2,0,0⟩, ⟨3,0,0⟩] CleanupMode.percentage 50 0 =
        ⟨resetVerts [⟨0,0,0⟩, ⟨0,0,0⟩, ⟨0,0,0⟩, ⟨0,0,0⟩]
            [⟨0,0,0⟩, ⟨1,0,0⟩, ⟨2,0,0⟩, ⟨3,0,0⟩]
            (cleanupPrefix [⟨0,0,0⟩, ⟨0,0,0⟩, ⟨0,0,0⟩, ⟨0,0,0⟩]
              [⟨0,0,0⟩, ⟨1,0,0⟩, ⟨2,0,0⟩, ⟨3,0,0⟩] 50),
          .reset (cleanupResetCount [⟨0,0,0⟩, ⟨0,0,0⟩, ⟨0,0,0⟩, ⟨0,0,0⟩]
              [⟨0,0,0⟩, ⟨1,0,0⟩, ⟨2,0,0⟩, ⟨3,0,0⟩] 50)
            ((movingSet [⟨0,0,0⟩, ⟨0,0,0⟩, ⟨0,0,0⟩, ⟨0,0,0⟩]
                [⟨0,0,0⟩, ⟨1,0,0⟩, ⟨2,0,0⟩, ⟨3,0,0⟩]).length -
              cleanupResetCount [⟨0,0,0⟩, ⟨0,0,0⟩, ⟨0,0,0⟩, ⟨0,0,0⟩]
                [⟨0,0,0⟩, ⟨1,0,0⟩, ⟨2,0,0⟩, ⟨3,0,0⟩] 50)⟩ ∧
      (∀ i ∈ cleanupPrefix [⟨0,0,0⟩, ⟨0,0,0⟩, ⟨0,0,0⟩, ⟨0,0,0⟩]
          [⟨0,0,0⟩, ⟨1,0,0⟩, ⟨2,0,0⟩, ⟨3,0,0⟩] 50,
        (blendToBasisByDistance [⟨0,0,0⟩, ⟨0,0,0⟩, ⟨0,0,0⟩, ⟨0,0,0⟩]
            [⟨0,0,0⟩, ⟨1,0,0⟩, ⟨2,0,0⟩, ⟨3,0,0⟩] CleanupMode.percentage 50
            0).positions.getD i Vec3.zero =
          ([⟨0,0,0⟩, ⟨0,0,0⟩, ⟨0,0,0⟩, ⟨0,0,0⟩] :
            List Vec3).getD i Vec3.zero) ∧
      (∀ i : Nat, i < 4 →
        i ∉ cleanupPrefix [⟨0,0,0⟩, ⟨0,0,0⟩, ⟨0,0,0⟩, ⟨0,0,0⟩]
          [⟨0,0,0⟩, ⟨1,0,0⟩, ⟨2,0,0⟩, ⟨3,0,0⟩] 50 →
        (blendToBasisByDistance [⟨0,0,0⟩, ⟨0,0,0⟩, ⟨0,0,0⟩, ⟨0,0,0⟩]
            [⟨0,0,0⟩, ⟨1,0,0⟩, ⟨2,0,0⟩, ⟨3,0,0⟩] CleanupMode.percentage 50
            0).positions.getD i Vec3.zero =
          ([⟨0,0,0⟩, ⟨1,0,0⟩, ⟨2,0,0⟩, ⟨3,0,0⟩] :
            List Vec3).getD i Vec3.zero)) ∧
    cleanupResetCount [⟨0,0,0⟩, ⟨0,0,0⟩, ⟨0,0,0⟩, ⟨0,0,0⟩]
      [⟨0,0,0⟩, ⟨1,0,0⟩, ⟨2,0,0⟩, ⟨3,0,0⟩] 50 = 1 := by
  constructor
  · have hmem : ((1 : Nat), (1 : ℚ)) ∈ movingSet
        [⟨0,0,0⟩, ⟨0,0,0⟩, ⟨0,0,0⟩, ⟨0,0,0⟩]
        [⟨0,0,0⟩, ⟨1,0,0⟩, ⟨2,0,0⟩, ⟨3,0,0⟩] := by
      rw [mem_movingSet]
      norm_num [dist2, Vec3.sub, Vec3.normSq, Vec3.zero]
    have h := cleanup_percentage_correct
      [⟨0,0,0⟩, ⟨0,0,0⟩, ⟨0,0,0⟩, ⟨0,0,0⟩]
      [⟨0,0,0⟩, ⟨1,0,0⟩, ⟨2,0,0⟩, ⟨3,0,0⟩] 50 0 (by simp) (by norm_num)
      (by norm_num) (List.ne_nil_of_mem hmem)
    simpa using h
  · have e0 : movingEntry [⟨0,0,0⟩, ⟨0,0,0⟩, ⟨0,0,0⟩, ⟨0,0,0⟩]
        [⟨0,0,0⟩, ⟨1,0,0⟩, ⟨2,0,0⟩, ⟨3,0,0⟩] 0 = none := by
      norm_num [movingEntry, dist2, Vec3.sub, Vec3.normSq, Vec3.zero]
    have e1 : movingEntry [⟨0,0,0⟩, ⟨0,0,0⟩, ⟨0,0,0⟩, ⟨0,0,0⟩]
        [⟨0,0,0⟩, ⟨1,0,0⟩, ⟨2,0,0⟩, ⟨3,0,0⟩] 1 = some (1, 1) := by
      norm_num [movingEntry, dist2, Vec3.sub, Vec3.normSq, Vec3.zero]
    have e2 : movingEntry [⟨0,0,0⟩, ⟨0,0,0⟩, ⟨0,0,0⟩, ⟨0,0,0⟩]
        [⟨0,0,0⟩, ⟨1,0,0⟩, ⟨2,0,0⟩, ⟨3,0,0⟩] 2 = some (2, 4) := by
      norm_num [movingEntry, dist2, Vec3.sub, Vec3.normSq, Vec3.zero]
    have e3 : movingEntry [⟨0,0,0⟩, ⟨0,0,0⟩, ⟨0,0,0⟩, ⟨0,0,0⟩]
        [⟨0,0,0⟩, ⟨1,0,0⟩, ⟨2,0,0⟩, ⟨3,0,0⟩] 3 = some (3, 9) := by
      norm_num [movingEntry, dist2, Vec3.sub, Vec3.normSq, Vec3.zero]
    have hms : movingSet [⟨0,0,0⟩, ⟨0,0,0⟩, ⟨0,0,0⟩, ⟨0,0,0⟩]
        [⟨0,0,0⟩, ⟨1,0,0⟩, ⟨2,0,0⟩, ⟨3,0,0⟩] = [(1,1), (2,4), (3,9)] := by
      rw [movingSet, show List.range ([⟨0,0,0⟩, ⟨1,0,0⟩, ⟨2,0,0⟩,
        ⟨3,0,0⟩] : List Vec3).length = [0,1,2,3] by simp [List.range_succ]]
      simp [List.filterMap_cons, e0, e1, e2, e3]
    unfold cleanupResetCount
    rw [hms]
    rw [show ((([((1:Nat),(1:ℚ)), (2,4), (3,9)] :
      List (Nat × ℚ)).length : ℚ) * (50 / 100)) = 3/2 by norm_num]
    rw [Nat.floor_eq_iff (by norm_num)]
    norm_num

/-! ## Input validation (C6)
No operator in the source validates array lengths or parameter ranges, and
no InvalidInput condition exists: range enforcement lives entirely in the
host property declarations (percentage min=0.0 max=100.0, thresholds
min=0.0), and equal basis/shape lengths are a host invariant of shape-key
data.  A percentage beyond 100 reaching execute() is not rejected: the
PERCENTAGE cleanup proceeds and resets min(⌊M·pct/100⌋, M) vertices. -/

/-- Counterexample to C6: with percentage = 200 (outside [0,100]) the
cleanup is not rejected with any InvalidInput condition — it runs to
completion, resets both moving vertices and reports a normal reset
outcome, mutating the array. -/
theorem cleanup_invalid_input_not_rejected :
    blendToBasisByDistance [⟨0,0,0⟩, ⟨0,0,0⟩] [⟨1,0,0⟩, ⟨2,0,0⟩]
        CleanupMode.percentage 200 0 =
      ⟨[⟨0,0,0⟩, ⟨0,0,0⟩], CleanupOutcome.reset 2 0⟩ ∧
    ([⟨0,0,0⟩, ⟨0,0,0⟩] : List Vec3) ≠ [⟨1,0,0⟩, ⟨2,0,0⟩] := by
  have e0 : movingEntry [⟨0,0,0⟩, ⟨0,0,0⟩] [⟨1,0,0⟩, ⟨2,0,0⟩] 0 =
      some (0, 1) := by
    norm_num [movingEntry, dist2, Vec3.sub, Vec3.normSq, Vec3.zero]
  have e1 : movingEntry [⟨0,0,0⟩, ⟨0,0,0⟩] [⟨1,0,0⟩, ⟨2,0,0⟩] 1 =
      some (1, 4) := by
    norm_num [movingEntry, dist2, Vec3.sub, Vec3.normSq, Vec3.zero]
  have hms : movingSet [⟨0,0,0⟩, ⟨0,0,0⟩] [⟨1,0,0⟩, ⟨2,0,0⟩] =
      [(0,1), (1,4)] := by
    rw [movingSet, show List.range ([⟨1,0,0⟩, ⟨2,0,0⟩] :
      List Vec3).length = [0,1] by simp [List.range_succ]]
    simp [List.filterMap_cons, e0, e1]
  have hk : Nat.floor (((movingSet [⟨0,0,0⟩, ⟨0,0,0⟩]
      [⟨1,0,0⟩, ⟨2,0,0⟩]).length : ℚ) * (200 / 100)) = 4 := by
    rw [hms]
    rw [show ((([((0:Nat),(1:ℚ)), (1,4)] :
      List (Nat × ℚ)).length : ℚ) * (200 / 100)) = 4 by norm_num]
    rw [Nat.floor_eq_iff (by norm_num)]
    norm_num
  constructor
  · simp only [blendToBasisByDistance]
    rw [hk]
    rw [hms]
    norm_num [sortByD, insertByD, resetVerts, List.set, Vec3.zero]
  · intro h
    have := List.head_eq_of_cons_eq h
    rw [Vec3.mk.injEq] at this
    exact absurd this.1 (by norm_num)

/-- C6 amended: the code performs no input validation and has no
InvalidInput condition (ranges are enforced only by host property clamps;
equal lengths are a host invariant).  When a percentage above 100 reaches
the core and the moving set is nonempty, the cleanup proceeds: it resets
every moving vertex to its basis position, leaves non-moving vertices
unchanged, and reports reset count M with 0 remaining. -/
theorem cleanup_overrange_percentage_proceeds (basis shape : List Vec3)
    (pct thr : ℚ) (hlen : basis.length = shape.length) (hp : 100 < pct)
    (hne : movingSet basis shape ≠ []) :
    (blendToBasisByDistance basis shape .percentage pct thr).outcome =
      CleanupOutcome.reset (movingSet basis shape).length 0 ∧
    (∀ i : Nat, i < shape.length →
      (0 < dist2 (basis.getD i Vec3.zero) (shape.getD i Vec3.zero) →
        (blendToBasisByDistance basis shape .percentage pct
            thr).positions.getD i Vec3.zero = basis.getD i Vec3.zero) ∧
      (dist2 (basis.getD i Vec3.zero) (shape.getD i Vec3.zero) = 0 →
        (blendToBasisByDistance basis shape .percentage pct
            thr).positions.getD i Vec3.zero = shape.getD i Vec3.zero)) := by
  have hcond : ¬((movingSet basis shape).isEmpty = true) := fun hemp =>
    hne (List.isEmpty_iff.mp hemp)
  have hkM : (movingSet basis shape).length ≤
      cleanupResetCount basis shape pct := by
    unfold cleanupResetCount
    apply Nat.le_floor
    have h1 : (1 : ℚ) ≤ pct / 100 := by linarith
    have h2 := mul_le_mul_of_nonneg_left h1
      (Nat.cast_nonneg (movingSet basis shape).length)
    rw [mul_one] at h2
    exact_mod_cast h2
  have htake : (sortByD (movingSet basis shape)).take
      (cleanupResetCount basis shape pct) = sortByD (movingSet basis shape) :=
    List.take_of_length_le (by
      rw [(sortByD_perm _).length_eq]
      exact hkM)
  have hpfx : cleanupPrefix basis shape pct =
      (sortByD (movingSet basis shape)).map Prod.fst := by
    unfold cleanupPrefix
    rw [htake]
  have hmemIff : ∀ i : Nat, i ∈ cleanupPrefix basis shape pct ↔
      i < shape.length ∧
        0 < dist2 (basis.getD i Vec3.zero) (shape.getD i Vec3.zero) := by
    intro i
    rw [hpfx, List.mem_map]
    constructor
    · rintro ⟨v, hv, hvi⟩
      have hm := (sortByD_perm _).mem_iff.mp hv
      rw [mem_movingSet] at hm
      subst hvi
      rw [← hm.2.2]
      exact ⟨hm.1, hm.2.1⟩
    · rintro ⟨hi, hq⟩
      refine ⟨(i, dist2 (basis.getD i Vec3.zero) (shape.getD i Vec3.zero)),
        ?_, rfl⟩
      apply (sortByD_perm _).mem_iff.mpr
      rw [mem_movingSet]
      exact ⟨hi, hq, rfl⟩
  have hres : blendToBasisByDistance basis shape .percentage pct thr =
      ⟨resetVerts basis shape (cleanupPrefix basis shape pct),
        .reset (cleanupPrefix basis shape pct).length
          ((movingSet basis shape).length -
            (cleanupPrefix basis shape pct).length)⟩ := by
    unfold blendToBasisByDistance
    rw [if_neg hcond]
    rfl
  have hlenp : (cleanupPrefix basis shape pct).length =
      (movingSet basis shape).length := by
    rw [hpfx, List.length_map, (sortByD_perm _).length_eq]
  constructor
  · rw [hres]
    show CleanupOutcome.reset (cleanupPrefix basis shape pct).length _ = _
    rw [hlenp, Nat.sub_self]
  · intro i hi
    constructor
    · intro hq
      rw [hres]
      exact resetVerts_getD_mem basis _ i
        ((hmemIff i).mpr ⟨hi, hq⟩) shape hi
    · intro hq
      rw [hres]
      apply resetVerts_getD_not_mem
      intro hmem
      rw [hmemIff i] at hmem
      rw [hq] at hmem
      exact lt_irrefl 0 hmem.2

/-- Witness for the amended C6: percentage 150 on a one-vertex mesh whose
vertex moves by 1 → the operation proceeds, resets the vertex and reports
reset 1, remaining 0. -/
theorem cleanup_overrange_percentage_proceeds_witness :
    (blendToBasisByDistance [⟨0,0,0⟩] [⟨1,0,0⟩] CleanupMode.percentage 150
        0).outcome = CleanupOutcome.reset 1 0 ∧
    (∀ i : Nat, i < 1 →
      (0 < dist2 (([⟨0,0,0⟩] : List Vec3).getD i Vec3.zero)
          (([⟨1,0,0⟩] : List Vec3).getD i Vec3.zero) →
        (blendToBasisByDistance [⟨0,0,0⟩] [⟨1,0,0⟩] CleanupMode.percentage
            150 0).positions.getD i Vec3.zero =
          ([⟨0,0,0⟩] : List Vec3).getD i Vec3.zero) ∧
      (dist2 (([⟨0,0,0⟩] : List Vec3).getD i Vec3.zero)
          (([⟨1,0,0⟩] : List Vec3).getD i Vec3.zero) = 0 →
        (blendToBasisByDistance [⟨0,0,0⟩] [⟨1,0,0⟩] CleanupMode.percentage
            150 0).positions.getD i Vec3.zero =
          ([⟨1,0,0⟩] : List Vec3).getD i Vec3.zero)) := by
  have hmem : ((0 : Nat), (1 : ℚ)) ∈ movingSet [⟨0,0,0⟩] [⟨1,0,0⟩] := by
    rw [mem_movingSet]
    norm_num [dist2, Vec3.sub, Vec3.normSq, Vec3.zero]
  have h := cleanup_overrange_percentage_proceeds [⟨0,0,0⟩] [⟨1,0,0⟩] 150 0
    (by simp) (by norm_num) (List.ne_nil_of_mem hmem)
  have hlen1 : (movingSet [⟨0,0,0⟩] [⟨1,0,0⟩]).length = 1 := by
    have e0 : movingEntry [⟨0,0,0⟩] [⟨1,0,0⟩] 0 = some (0, 1) := by
      norm_num [movingEntry, dist2, Vec3.sub, Vec3.normSq, Vec3.zero]
    rw [movingSet, show List.range ([⟨1,0,0⟩] : List Vec3).length = [0] by
      simp [List.range_succ]]
    simp [List.filterMap_cons, e0]
  rw [hlen1] at h
  simpa using h

/-! ## Weighted Blender, distance-driven mode (C9)
Modelled from the spec: spec §4.4 describes a distance-driven blend
(mode LINEAR or INVERSE, percentage, normalize flag) that the source does
not contain — the panel comment at src line 397 labels the cleanup
operator "(formerly distance-based blend)", and no operator computes a
distance-derived blend weight.  The definitions below follow §4.4's words.
The displacement array d of algorithm step 1 (d[i] = ‖shape[i]−basis[i]‖)
is taken as an explicit argument because the Euclidean length is
irrational over ℚ; the claim theorem pins it down pointwise by d[i] ≥ 0
and d[i]·d[i] = dist2 basis[i] shape[i], which characterizes it uniquely
whenever it is rational. -/

/-- Modelled from the spec: the two distance-weight modes of §4.4. -/
inductive DistMode
  | linear
  | inverse
deriving DecidableEq

/-- Modelled from the spec: §4.4 steps 3-4 — normalized[i] = d[i]/max_d
when normalize else d[i]; blend_weight[i] = (LINEAR ? normalized :
1 − normalized) · pct/100. -/
def distBlendWeight (mode : DistMode) (pct maxd d : ℚ)
    (normalize : Bool) : ℚ :=
  (match mode with
    | .linear => (if normalize then d / maxd else d)
    | .inverse => 1 - (if normalize then d / maxd else d)) * (pct / 100)

/-- Outcome of the distance-driven blend: the NoOp abort of §4.4 step 2
(positions untouched) or the mutated array. -/
inductive DistBlendResult
  | noOp (positions : List Vec3)
  | finished (positions : List Vec3)

/-- The final position array of either outcome. -/
def DistBlendResult.positions : DistBlendResult → List Vec3
  | .noOp ps => ps
  | .finished ps => ps

/-- Modelled from the spec: §4.4 — max_d = max of the displacements; if
max_d = 0 abort with NoOp and no mutation; otherwise every vertex becomes
lerp(shape[i], basis[i], blend_weight[i]) (the reverse direction of the
vertex-group blend). -/
def distBlend (basis shape : List Vec3) (d : List ℚ) (mode : DistMode)
    (pct : ℚ) (normalize : Bool) : DistBlendResult :=
  if d.foldr max 0 = 0 then .noOp shape
  else .finished ((List.range shape.length).map (fun i =>
    Vec3.lerp (shape.getD i Vec3.zero) (basis.getD i Vec3.zero)
      (distBlendWeight mode pct (d.foldr max 0) (d.getD i 0) normalize)))

/-- Every list element is bounded by the running maximum. -/
theorem le_foldr_max (d : List ℚ) : ∀ x ∈ d, x ≤ d.foldr max 0 := by
  induction d with
  | nil => intro x hx; cases hx
  | cons y ys ih =>
    intro x hx
    rcases List.mem_cons.mp hx with h | h
    · subst h
      exact le_max_left _ _
    · exact le_trans (ih x h) (le_max_right _ _)

/-- The running maximum over zeros is zero. -/
theorem foldr_max_eq_zero (d : List ℚ) (h : ∀ x ∈ d, x = 0) :
    d.foldr max 0 = 0 := by
  induction d with
  | nil => rfl
  | cons y ys ih =>
    show max y (ys.foldr max 0) = 0
    rw [h y (List.mem_cons_self _ _),
      ih (fun x hx => h x (List.mem_cons_of_mem _ hx))]
    exact max_self 0

/-- C9: with d the displacement array (pinned down by d[i] ≥ 0 and
d[i]² = dist2 basis[i] shape[i]), the distance-driven blend aborts with
NoOp and no mutation exactly when the maximum displacement is 0 (which
happens exactly when no vertex moved); otherwise every vertex becomes
lerp(shape[i], basis[i], blend_weight[i]) — the reverse direction of the
vertex-group blend — so blend_weight = 1 lands exactly on basis and
blend_weight = 0 leaves the vertex unchanged. -/
theorem dist_blend_correct (basis shape : List Vec3) (d : List ℚ)
    (mode : DistMode) (pct : ℚ) (normalize : Bool)
    (hlen : basis.length = shape.length) (hd : d.length = shape.length)
    (hchar : ∀ i : Nat, i < shape.length →
      0 ≤ d.getD i 0 ∧
        d.getD i 0 * d.getD i 0 =
          dist2 (basis.getD i Vec3.zero) (shape.getD i Vec3.zero)) :
    (d.foldr max 0 = 0 ↔
      ∀ i : Nat, i < shape.length →
        shape.getD i Vec3.zero = basis.getD i Vec3.zero) ∧
    (d.foldr max 0 = 0 →
      distBlend basis shape d mode pct normalize =
        DistBlendResult.noOp shape) ∧
    (d.foldr max 0 ≠ 0 →
      ∀ i : Nat, i < shape.length →
        ((distBlend basis shape d mode pct normalize).positions.getD i
            Vec3.zero =
          Vec3.lerp (shape.getD i Vec3.zero) (basis.getD i Vec3.zero)
            (distBlendWeight mode pct (d.foldr max 0) (d.getD i 0)
              normalize)) ∧
        (distBlendWeight mode pct (d.foldr max 0) (d.getD i 0)
            normalize = 1 →
          (distBlend basis shape d mode pct normalize).positions.getD i
              Vec3.zero = basis.getD i Vec3.zero) ∧
        (distBlendWeight mode pct (d.foldr max 0) (d.getD i 0)
            normalize = 0 →
          (distBlend basis shape d mode pct normalize).positions.getD i
              Vec3.zero = shape.getD i Vec3.zero)) := by
  refine ⟨?_, ?_, ?_⟩
  · constructor
    · intro hmax i hi
      have hi2 : i < d.length := by rw [hd]; exact hi
      have hmem : d.getD i 0 ∈ d := by
        rw [List.getD_eq_getElem?_getD, List.getElem?_eq_getElem hi2]
        simpa using List.getElem_mem hi2
      have hub := le_foldr_max d _ hmem
      rw [hmax] at hub
      have hzero : d.getD i 0 = 0 := le_antisymm hub (hchar i hi).1
      have hq : dist2 (basis.getD i Vec3.zero) (shape.getD i Vec3.zero)
          = 0 := by
        rw [← (hchar i hi).2, hzero, mul_zero]
      exact ((dist2_eq_zero_iff _ _).mp hq).symm
    · intro hall
      apply foldr_max_eq_zero
      intro x hx
      obtain ⟨i, hi2, hxi⟩ := List.mem_iff_getElem.mp hx
      have hi : i < shape.length := by rw [← hd]; exact hi2
      have hx0 : d.getD i 0 = x := by
        rw [List.getD_eq_getElem?_getD, List.getElem?_eq_getElem hi2]
        simpa using hxi
      have hq : dist2 (basis.getD i Vec3.zero) (shape.getD i Vec3.zero)
          = 0 := (dist2_eq_zero_iff _ _).mpr (hall i hi).symm
      have := (hchar i hi).2
      rw [hq, mul_self_eq_zero] at this
      rw [← hx0]
      exact this
  · intro hmax
    unfold distBlend
    rw [if_pos hmax]
  · intro hmax i hi
    have hget : (distBlend basis shape d mode pct normalize).positions.getD
        i Vec3.zero =
        Vec3.lerp (shape.getD i Vec3.zero) (basis.getD i Vec3.zero)
          (distBlendWeight mode pct (d.foldr max 0) (d.getD i 0)
            normalize) := by
      unfold distBlend
      rw [if_neg hmax]
      exact getD_map_range _ _ i hi _
    refine ⟨hget, ?_, ?_⟩
    · intro hw
      rw [hget, hw, lerp_one]
    · intro hw
      rw [hget, hw, lerp_zero]

/-- Witness for C9: one vertex moved by 3 along x, d = [3] (3·3 = dist² =
9), LINEAR mode, percentage 100, normalized → max_d = 3 ≠ 0, the blend
weight is 3/3 · 1 = 1 and the vertex lands exactly on basis. -/
theorem dist_blend_correct_witness :
    (([(3 : ℚ)].foldr max 0 = 0 ↔
      ∀ i : Nat, i < 1 →
        ([⟨3,0,0⟩] : List Vec3).getD i Vec3.zero =
          ([⟨0,0,0⟩] : List Vec3).getD i Vec3.zero) ∧
    ([(3 : ℚ)].foldr max 0 = 0 →
      distBlend [⟨0,0,0⟩] [⟨3,0,0⟩] [3] DistMode.linear 100 true =
        DistBlendResult.noOp [⟨3,0,0⟩]) ∧
    ([(3 : ℚ)].foldr max 0 ≠ 0 →
      ∀ i : Nat, i < 1 →
        ((distBlend [⟨0,0,0⟩] [⟨3,0,0⟩] [3] DistMode.linear 100
            true).positions.getD i Vec3.zero =
          Vec3.lerp (([⟨3,0,0⟩] : List Vec3).getD i Vec3.zero)
            (([⟨0,0,0⟩] : List Vec3).getD i Vec3.zero)
            (distBlendWeight DistMode.linear 100 ([(3 : ℚ)].foldr max 0)
              (([(3 : ℚ)] : List ℚ).getD i 0) true)) ∧
        (distBlendWeight DistMode.linear 100 ([(3 : ℚ)].foldr max 0)
            (([(3 : ℚ)] : List ℚ).getD i 0) true = 1 →
          (distBlend [⟨0,0,0⟩] [⟨3,0,0⟩] [3] DistMode.linear 100
              true).positions.getD i Vec3.zero =
            ([⟨0,0,0⟩] : List Vec3).getD i Vec3.zero) ∧
        (distBlendWeight DistMode.linear 100 ([(3 : ℚ)].foldr max 0)
            (([(3 : ℚ)] : List ℚ).getD i 0) true = 0 →
          (distBlend [⟨0,0,0⟩] [⟨3,0,0⟩] [3] DistMode.linear 100
              true).positions.getD i Vec3.zero =
            ([⟨3,0,0⟩] : List Vec3).getD i Vec3.zero))) ∧
    distBlendWeight DistMode.linear 100 ([(3 : ℚ)].foldr max 0)
      (([(3 : ℚ)] : List ℚ).getD 0 0) true = 1 := by
  constructor
  · exact dist_blend_correct [⟨0,0,0⟩] [⟨3,0,0⟩] [3] DistMode.linear 100
      true (by simp) (by simp)
      (by
        intro i hi
        have hi1 : i < 1 := by simpa using hi
        have hi0 : i = 0 := by omega
        subst hi0
        norm_num [dist2, Vec3.sub, Vec3.normSq, Vec3.zero])
  · norm_num [distBlendWeight]

/-! ## Affected-Face Finder
(MESH_OT_select_shapekey_faces.execute, src lines 98-142.)
Lines 112-119 rebuild the affected-vertex set with the same displacement
test; lines 121-123 clear every face selection; lines 126-132 select each
face containing at least one affected vertex, breaking at the first hit so
each face is counted exactly once. -/

/-- Shared characterization of the affected-vertex mask (the loop of
lines 56-63 and the identical one at lines 114-119). -/
theorem mem_selectShapekeyVertices (basis shape : List Vec3) (t : ℚ)
    (i : Nat) :
    i ∈ selectShapekeyVertices basis shape t ↔
      i < shape.length ∧
        t * t < dist2 (basis.getD i Vec3.zero) (shape.getD i Vec3.zero) := by
  simp [selectShapekeyVertices, List.mem_filter, List.mem_range, vertAffected]

/-- The face-selection mask: faces is the host FaceAdjacency (face index to
its vertex indices); a face is selected when any of its vertices is in the
affected-vertex set. -/
def selectShapekeyFaces (basis shape : List Vec3) (faces : List (List Nat))
    (t : ℚ) : List Nat :=
  (List.range faces.length).filter (fun f =>
    (faces.getD f []).any (fun v =>
      (selectShapekeyVertices basis shape t).contains v))

/-- The affected_count of the face operator: one increment per selected
face (the break at line 132 prevents double counting). -/
def selectShapekeyFacesCount (basis shape : List Vec3)
    (faces : List (List Nat)) (t : ℚ) : Nat :=
  (selectShapekeyFaces basis shape faces t).length

/-- C5: the face mask is exactly the set of face indices with at least one
adjacent vertex in the affected-vertex set; a face with no affected vertex
is never selected; the count equals the number of selected faces, each
counted once (the mask has no duplicates). -/
theorem select_faces_correct (basis shape : List Vec3)
    (faces : List (List Nat)) (t : ℚ)
    (hlen : basis.length = shape.length) (ht : 0 ≤ t) :
    (∀ f : Nat, f ∈ selectShapekeyFaces basis shape faces t ↔
      f < faces.length ∧ ∃ v ∈ faces.getD f [],
        v < shape.length ∧
          t * t < dist2 (basis.getD v Vec3.zero) (shape.getD v Vec3.zero)) ∧
    (∀ f : Nat, f < faces.length →
      (∀ v ∈ faces.getD f [],
        ¬(v < shape.length ∧
          t * t < dist2 (basis.getD v Vec3.zero)
            (shape.getD v Vec3.zero))) →
      f ∉ selectShapekeyFaces basis shape faces t) ∧
    (selectShapekeyFaces basis shape faces t).Nodup ∧
    selectShapekeyFacesCount basis shape faces t =
      (selectShapekeyFaces basis shape faces t).length := by
  have hmem : ∀ f : Nat, f ∈ selectShapekeyFaces basis shape faces t ↔
      f < faces.length ∧ ∃ v ∈ faces.getD f [],
        v < shape.length ∧
          t * t < dist2 (basis.getD v Vec3.zero)
            (shape.getD v Vec3.zero) := by
    intro f
    unfold selectShapekeyFaces
    rw [List.mem_filter, List.mem_range]
    constructor
    · rintro ⟨hf, hany⟩
      rw [List.any_eq_true] at hany
      obtain ⟨v, hv, hvc⟩ := hany
      have hvm : v ∈ selectShapekeyVertices basis shape t := by
        simpa [List.elem_iff] using hvc
      rw [mem_selectShapekeyVertices] at hvm
      exact ⟨hf, v, hv, hvm⟩
    · rintro ⟨hf, v, hv, hvp⟩
      refine ⟨hf, ?_⟩
      rw [List.any_eq_true]
      refine ⟨v, hv, ?_⟩
      have hvm : v ∈ selectShapekeyVertices basis shape t :=
        (mem_selectShapekeyVertices basis shape t v).mpr hvp
      simpa [List.elem_iff] using hvm
  refine ⟨hmem, ?_, ?_, rfl⟩
  · intro f hf hnone hmemf
    obtain ⟨v, hv, hvp⟩ := ((hmem f).mp hmemf).2
    exact hnone v hv hvp
  · exact List.Nodup.filter _ (List.nodup_range _)

/-- Witness for C5 on the spec §8 example plus a three-face adjacency:
affected vertices are {1,2,3}; face 0 = [0,1] and face 2 = [2,3] are
selected, face 1 = [0] is not; count 2. -/
theorem select_faces_correct_witness :
    ((∀ f : Nat, f ∈ selectShapekeyFaces
        [⟨0,0,0⟩, ⟨0,0,0⟩, ⟨0,0,0⟩, ⟨0,0,0⟩]
        [⟨0,0,0⟩, ⟨1,0,0⟩, ⟨2,0,0⟩, ⟨3,0,0⟩] [[0,1],[0],[2,3]] (1/2) ↔
      f < 3 ∧ ∃ v ∈ ([[0,1],[0],[2,3]] : List (List Nat)).getD f [],
        v < 4 ∧
          (1/2 : ℚ) * (1/2) <
            dist2 (([⟨0,0,0⟩, ⟨0,0,0⟩, ⟨0,0,0⟩, ⟨0,0,0⟩] :
                List Vec3).getD v Vec3.zero)
              (([⟨0,0,0⟩, ⟨1,0,0⟩, ⟨2,0,0⟩, ⟨3,0,0⟩] :
                List Vec3).getD v Vec3.zero))) ∧
    selectShapekeyFaces [⟨0,0,0⟩, ⟨0,0,0⟩, ⟨0,0,0⟩, ⟨0,0,0⟩]
      [⟨0,0,0⟩, ⟨1,0,0⟩, ⟨2,0,0⟩, ⟨3,0,0⟩] [[0,1],[0],[2,3]] (1/2) =
        [0, 2] ∧
    selectShapekeyFacesCount [⟨0,0,0⟩, ⟨0,0,0⟩, ⟨0,0,0⟩, ⟨0,0,0⟩]
      [⟨0,0,0⟩, ⟨1,0,0⟩, ⟨2,0,0⟩, ⟨3,0,0⟩] [[0,1],[0],[2,3]] (1/2) = 2 := by
  have hverts : selectShapekeyVertices [⟨0,0,0⟩, ⟨0,0,0⟩, ⟨0,0,0⟩, ⟨0,0,0⟩]
      [⟨0,0,0⟩, ⟨1,0,0⟩, ⟨2,0,0⟩, ⟨3,0,0⟩] (1/2) = [1, 2, 3] := by
    norm_num [selectShapekeyVertices, vertAffected, dist2, Vec3.sub,
      Vec3.normSq, Vec3.zero, List.range_succ, List.filter]
  have h := select_faces_correct [⟨0,0,0⟩, ⟨0,0,0⟩, ⟨0,0,0⟩, ⟨0,0,0⟩]
    [⟨0,0,0⟩, ⟨1,0,0⟩, ⟨2,0,0⟩, ⟨3,0,0⟩] [[0,1],[0],[2,3]] (1/2)
    (by simp) (by norm_num)
  have hfaces : selectShapekeyFaces [⟨0,0,0⟩, ⟨0,0,0⟩, ⟨0,0,0⟩, ⟨0,0,0⟩]
      [⟨0,0,0⟩, ⟨1,0,0⟩, ⟨2,0,0⟩, ⟨3,0,0⟩] [[0,1],[0],[2,3]] (1/2) =
        [0, 2] := by
    norm_num [selectShapekeyFaces, hverts, List.range_succ, List.filter]
  refine ⟨by simpa using h.1, hfaces, ?_⟩
  rw [selectShapekeyFacesCount, hfaces]
  rfl
